import Mathlib

/-!
Verification of the auth-server factory (`astore/server/auth/factory.go`).

The Go file builds a `Server` (the authentication broker) through functional
options (`Modifier`s): `WithTimeLimit`, `WithAuthURL`, `WithCA`,
`WithPrincipals`, `WithFlags`, combined by `New`.  The embedding below
translates those functions directly; Go's mutation of `*Server` becomes
explicit state passing, and `(*Server, error)` results become
`Except String Server`.
-/

namespace AuthFactory

/-- Go `[]byte`, one natural number per byte. -/
abbrev Bytes := List Nat

/-- Modelled from the spec: `common.Key`, the NaCl box key type used for the
broker keypair and as the key of the jars map (the `common` package is not
under src/; the spec only requires it to be an opaque comparable key). -/
abbrev Key := List Nat

/-- Modelled from the spec: a `Jar` is one in-flight authentication session
(creation time and challenge state); for the construction-time claims only
its presence in the store matters, so it is reduced to its creation time. -/
structure Jar where
  created : Nat
deriving DecidableEq

/-- Modelled from the spec: the external cryptographic collaborators used by
the factory, which are library code outside this repository.
`parsePrivateKey` is `ssh.ParsePrivateKey`, `publicKey` is the
`PublicKey()` method of the returned signer (signers are abstract handles),
`marshalAuthorizedKey` is `ssh.MarshalAuthorizedKey`, and `generateKey` is
`box.GenerateKey` applied to a random source (a seed standing for
`*rand.Rand`).  Failures are the `Except.error` case. -/
structure CryptoEnv where
  parsePrivateKey : Bytes → Except String Nat
  publicKey : Nat → Nat
  marshalAuthorizedKey : Nat → Bytes
  generateKey : Nat → Except String (Key × Key)

/-- The broker state, from the `Server` fields touched by `factory.go`:
the literal in `New` sets `rng`, `serverPub`, `serverPriv`, `jars`, `limit`;
the modifiers set `authURL`, `caSigner`, `marshalledCAPublicKey`,
`principals` (zero-valued before any modifier runs, as in Go). -/
structure Server where
  rng : Nat
  serverPub : Key
  serverPriv : Key
  jars : List (Key × Jar)
  limit : Int
  authURL : String
  caSigner : Option Nat
  marshalledCAPublicKey : Bytes
  principals : List String
deriving DecidableEq

/-- `time.Minute` in nanoseconds (Go `time.Duration` units). -/
def timeMinute : Int := 60000000000

/-- The `Flags` struct of `factory.go`. -/
structure Flags where
  TimeLimit : Int
  AuthURL : String
  Principals : String
  CA : Bytes
deriving DecidableEq

/-- `DefaultFlags` returns a `Flags` with `TimeLimit: time.Minute * 30` and
every other field zero-valued. -/
def DefaultFlags : Flags :=
  { TimeLimit := 30 * timeMinute, AuthURL := "", Principals := "", CA := [] }

/-- A configuration modifier, Go `type Modifier func(*Server) error`;
mutation becomes returning the updated server. -/
abbrev Modifier := Server → Except String Server

/-- `WithAuthURL` stores the URL unconditionally. -/
def WithAuthURL (url : String) : Modifier := fun s =>
  .ok { s with authURL := url }

/-- `WithTimeLimit` stores the limit unconditionally. -/
def WithTimeLimit (limit : Int) : Modifier := fun s =>
  .ok { s with limit := limit }

/-- `WithCA` parses the CA private key; on success it stores the signer and
the authorized-key marshalling of the signer's public key, on failure it
returns the parse error. -/
def WithCA (env : CryptoEnv) (fileContent : Bytes) : Modifier := fun server =>
  match env.parsePrivateKey fileContent with
  | .error err => .error err
  | .ok signer =>
      .ok { server with
              caSigner := some signer,
              marshalledCAPublicKey :=
                env.marshalAuthorizedKey (env.publicKey signer) }

/-- Go `strings.Split(raw, ",")`: the substrings of `raw` between commas, in
order, modelled by splitting the character list on the comma. -/
def goSplit (raw : String) : List String :=
  (raw.data.splitOn ',').map String.mk

/-- `WithPrincipals` splits the raw comma-separated string and rejects the
result that corresponds to an empty flag (`len == 0`, impossible for
`strings.Split`, or a single empty-string element). -/
def WithPrincipals (raw : String) : Modifier := fun server =>
  let splitString := goSplit raw
  if splitString.length = 0 ∨ (splitString.length = 1 ∧ splitString.getD 0 "" = "") then
    .error "there cannot be 0 principals in the auth server"
  else
    .ok { server with principals := splitString }

/-- `WithFlags` applies time limit, auth URL, CA and principals in that
order, stopping at the first error, then rejects an auth URL that is empty
or the bare root path. -/
def WithFlags (env : CryptoEnv) (f : Flags) : Modifier := fun s =>
  (WithTimeLimit f.TimeLimit s).bind fun s1 =>
  (WithAuthURL f.AuthURL s1).bind fun s2 =>
  (WithCA env f.CA s2).bind fun s3 =>
  (WithPrincipals f.Principals s3).bind fun s4 =>
  if s4.authURL = "" ∨ s4.authURL = "/" then
    .error "an auth-url must be supplied using the --auth-url parameter"
  else
    .ok s4

/-- Go `strings.TrimSuffix(s, suffix)`: removes one copy of the trailing
`suffix`, when present (`strings.HasSuffix` then a slice dropping the
suffix), modelled over the character list. -/
def TrimSuffix (s suffix : String) : String :=
  if suffix.data.isSuffixOf s.data then
    String.mk (s.data.take (s.data.length - suffix.data.length))
  else s

/-- The loop `for _, m := range mods` of `New`: apply modifiers left to
right, returning the first error. -/
def applyMods (mods : List Modifier) (s : Server) : Except String Server :=
  match mods with
  | [] => .ok s
  | m :: rest =>
      match m s with
      | .error e => .error e
      | .ok s1 => applyMods rest s1

/-- The `&Server{...}` literal of `New`: fresh keypair, empty jars map,
30-minute default limit, zero values elsewhere. -/
def initServer (rng : Nat) (pub priv : Key) : Server :=
  { rng := rng, serverPub := pub, serverPriv := priv, jars := [],
    limit := 30 * timeMinute, authURL := "", caSigner := none,
    marshalledCAPublicKey := [], principals := [] }

/-- The tail of `New` after the modifier loop: strip one trailing slash from
the auth URL and reject an empty result. -/
def newFinish (res : Except String Server) : Except String Server :=
  match res with
  | .error e => .error e
  | .ok s0 =>
      let s := { s0 with authURL := TrimSuffix s0.authURL "/" }
      if s.authURL = "" then
        .error "API usage error - an authentication URL must be set"
      else
        .ok s

/-- `New`: generate the broker keypair (failure is fatal), build the initial
server, apply the modifiers in order (first error is fatal), strip one
trailing slash from the auth URL and reject an empty result. -/
def New (env : CryptoEnv) (rng : Nat) (mods : List Modifier) :
    Except String Server :=
  match env.generateKey rng with
  | .error err => .error err
  | .ok (pub, priv) => newFinish (applyMods mods (initServer rng pub priv))

/-! ### Helper lemmas -/

lemma goSplit_ne_nil (raw : String) : goSplit raw ≠ [] := by
  unfold goSplit
  intro h
  rw [List.map_eq_nil_iff] at h
  exact List.splitOnP_ne_nil _ _ h

lemma goSplit_eq_single_empty_iff (raw : String) : goSplit raw = [""] ↔ raw = "" := by
  constructor
  · intro h
    unfold goSplit at h
    have hsplit : raw.data.splitOn ',' = [[]] := by
      cases h' : raw.data.splitOn ',' with
      | nil => rw [h'] at h; simp at h
      | cons x t =>
          rw [h'] at h
          simp only [List.map_cons, List.cons.injEq, List.map_eq_nil_iff] at h
          obtain ⟨hx, ht⟩ := h
          have hx' : x = [] := by
            have := congrArg String.data hx
            simpa using this
          rw [hx', ht]
    have h2 := List.intercalate_splitOn raw.data ','
    rw [hsplit] at h2
    simp [List.intercalate] at h2
    cases raw with
    | mk d => simp_all
  · intro h
    rw [h]
    rfl

lemma withPrincipals_cond_iff (ss : List String) (h : ss ≠ []) :
    (ss.length = 0 ∨ (ss.length = 1 ∧ ss.getD 0 "" = "")) ↔ ss = [""] := by
  match ss with
  | [] => exact absurd rfl h
  | [x] => simp
  | x :: y :: t => simp

lemma withPrincipals_error_iff (raw : String) (s : Server) :
    (∃ e, WithPrincipals raw s = .error e) ↔ raw = "" := by
  unfold WithPrincipals
  rw [if_congr (withPrincipals_cond_iff (goSplit raw) (goSplit_ne_nil raw)) rfl rfl]
  constructor
  · intro ⟨e, he⟩
    by_cases hc : goSplit raw = [""]
    · exact (goSplit_eq_single_empty_iff raw).1 hc
    · rw [if_neg hc] at he; exact absurd he (by simp)
  · intro h
    subst h
    exact ⟨_, rfl⟩

lemma withPrincipals_ok (raw : String) (s s' : Server)
    (h : WithPrincipals raw s = .ok s') :
    raw ≠ "" ∧ s' = { s with principals := goSplit raw } := by
  unfold WithPrincipals at h
  rw [if_congr (withPrincipals_cond_iff (goSplit raw) (goSplit_ne_nil raw)) rfl rfl] at h
  by_cases hc : goSplit raw = [""]
  · rw [if_pos hc] at h; exact absurd h (by simp)
  · rw [if_neg hc] at h
    exact ⟨fun hraw => hc ((goSplit_eq_single_empty_iff raw).2 hraw),
           (Except.ok.inj h).symm⟩

lemma withCA_error_of_parse (env : CryptoEnv) (b : Bytes) (e : String)
    (hp : env.parsePrivateKey b = .error e) (s : Server) :
    WithCA env b s = .error e := by
  unfold WithCA
  rw [hp]

lemma withCA_ok (env : CryptoEnv) (b : Bytes) (s s' : Server)
    (h : WithCA env b s = .ok s') :
    ∃ sig, env.parsePrivateKey b = .ok sig ∧
      s' = { s with caSigner := some sig,
                    marshalledCAPublicKey :=
                      env.marshalAuthorizedKey (env.publicKey sig) } := by
  unfold WithCA at h
  cases hp : env.parsePrivateKey b with
  | error e => rw [hp] at h; exact absurd h (by simp)
  | ok sig =>
      rw [hp] at h
      exact ⟨sig, rfl, (Except.ok.inj h).symm⟩

lemma except_bind_ok {α β : Type} (x : Except String α) (f : α → Except String β)
    (b : β) (h : x.bind f = .ok b) : ∃ a, x = .ok a ∧ f a = .ok b := by
  cases x with
  | error e => exact absurd h (by simp [Except.bind])
  | ok a => exact ⟨a, rfl, h⟩

lemma withCA_ok_of_parse (env : CryptoEnv) (b : Bytes) (sig : Nat)
    (hp : env.parsePrivateKey b = .ok sig) (s : Server) :
    WithCA env b s = .ok { s with caSigner := some sig,
                                  marshalledCAPublicKey :=
                                    env.marshalAuthorizedKey (env.publicKey sig) } := by
  unfold WithCA
  rw [hp]

lemma withPrincipals_empty (s : Server) :
    WithPrincipals "" s = .error "there cannot be 0 principals in the auth server" := rfl

lemma withFlags_error_of_parse (env : CryptoEnv) (f : Flags) (e : String)
    (hp : env.parsePrivateKey f.CA = .error e) (s : Server) :
    WithFlags env f s = .error e := by
  unfold WithFlags WithTimeLimit WithAuthURL
  simp only [Except.bind]
  rw [withCA_error_of_parse env f.CA e hp]

lemma withFlags_error_of_empty_principals (env : CryptoEnv) (f : Flags) (sig : Nat)
    (hp : env.parsePrivateKey f.CA = .ok sig) (hpr : f.Principals = "") (s : Server) :
    WithFlags env f s = .error "there cannot be 0 principals in the auth server" := by
  unfold WithFlags WithTimeLimit WithAuthURL
  simp only [Except.bind]
  rw [withCA_ok_of_parse env f.CA sig hp]
  simp only [Except.bind]
  rw [hpr, withPrincipals_empty]

lemma withFlags_ok (env : CryptoEnv) (f : Flags) (s s' : Server)
    (h : WithFlags env f s = .ok s') :
    ∃ sig, env.parsePrivateKey f.CA = .ok sig ∧ f.Principals ≠ "" ∧
      ¬(f.AuthURL = "" ∨ f.AuthURL = "/") ∧
      s' = { s with
              limit := f.TimeLimit, authURL := f.AuthURL,
              caSigner := some sig,
              marshalledCAPublicKey := env.marshalAuthorizedKey (env.publicKey sig),
              principals := goSplit f.Principals } := by
  unfold WithFlags WithTimeLimit WithAuthURL at h
  simp only [Except.bind] at h
  obtain ⟨s3, hca, h⟩ := except_bind_ok _ _ _ h
  obtain ⟨sig, hp, hs3⟩ := withCA_ok _ _ _ _ hca
  obtain ⟨s4, hwp, h⟩ := except_bind_ok _ _ _ h
  obtain ⟨hraw, hs4⟩ := withPrincipals_ok _ _ _ hwp
  subst hs3
  subst hs4
  simp only at h
  split at h
  · exact absurd h (by simp)
  · rename_i hcond
    refine ⟨sig, hp, hraw, hcond, ?_⟩
    exact (Except.ok.inj h).symm

lemma applyMods_append (mods1 mods2 : List Modifier) (s : Server) :
    applyMods (mods1 ++ mods2) s =
      (applyMods mods1 s).bind fun s1 => applyMods mods2 s1 := by
  induction mods1 generalizing s with
  | nil => rfl
  | cons m rest ih =>
      simp only [List.cons_append, applyMods]
      cases m s with
      | error e => rfl
      | ok s1 => exact ih s1

lemma applyMods_always_error (m : Modifier) (hm : ∀ s, ∃ e, m s = .error e)
    (pre post : List Modifier) (s : Server) :
    ∃ e, applyMods (pre ++ m :: post) s = .error e := by
  rw [applyMods_append]
  cases h : applyMods pre s with
  | error e => exact ⟨e, rfl⟩
  | ok s1 =>
      obtain ⟨e, he⟩ := hm s1
      exact ⟨e, by simp only [Except.bind, applyMods, he]⟩

lemma new_eq_of_keygen (env : CryptoEnv) (rng : Nat) (mods : List Modifier)
    (pub priv : Key) (hg : env.generateKey rng = .ok (pub, priv)) :
    New env rng mods = newFinish (applyMods mods (initServer rng pub priv)) := by
  unfold New
  rw [hg]

lemma new_eq_of_keygen_error (env : CryptoEnv) (rng : Nat)
    (mods : List Modifier) (e : String)
    (hg : env.generateKey rng = .error e) :
    New env rng mods = .error e := by
  unfold New
  rw [hg]

lemma new_error_of_mods (env : CryptoEnv) (rng : Nat) (mods : List Modifier)
    (h : ∀ s, ∃ e, applyMods mods s = .error e) :
    ∃ e, New env rng mods = .error e := by
  cases hg : env.generateKey rng with
  | error e => exact ⟨e, new_eq_of_keygen_error env rng mods e hg⟩
  | ok kp =>
      obtain ⟨pub, priv⟩ := kp
      obtain ⟨e, he⟩ := h (initServer rng pub priv)
      rw [new_eq_of_keygen env rng mods pub priv hg, he]
      exact ⟨e, rfl⟩

/-- The configuration modifiers exported by `factory.go`. -/
def FromFactory (env : CryptoEnv) (m : Modifier) : Prop :=
  (∃ d, m = WithTimeLimit d) ∨ (∃ u, m = WithAuthURL u) ∨
  (∃ b, m = WithCA env b) ∨ (∃ r, m = WithPrincipals r) ∨
  (∃ f, m = WithFlags env f)

/-- The factory modifiers other than the two that set the time limit. -/
def FromFactoryNoTimeLimit (env : CryptoEnv) (m : Modifier) : Prop :=
  (∃ u, m = WithAuthURL u) ∨ (∃ b, m = WithCA env b) ∨
  (∃ r, m = WithPrincipals r)

lemma applyMods_preserves (P : Server → Prop) (mods : List Modifier)
    (hmods : ∀ m ∈ mods, ∀ s s', m s = .ok s' → P s → P s')
    (s s' : Server) (h : applyMods mods s = .ok s') : P s → P s' := by
  induction mods generalizing s with
  | nil =>
      intro hP
      unfold applyMods at h
      rw [← Except.ok.inj h]
      exact hP
  | cons m rest ih =>
      intro hP
      unfold applyMods at h
      cases hm : m s with
      | error e => rw [hm] at h; exact absurd h (by simp)
      | ok s1 =>
          rw [hm] at h
          exact ih (fun m' hm' => hmods m' (List.mem_cons_of_mem _ hm')) s1 h
            (hmods m (List.mem_cons_self _ _) s s1 hm hP)

lemma fromFactory_jars (env : CryptoEnv) (m : Modifier) (hm : FromFactory env m)
    (s s' : Server) (h : m s = .ok s') : s'.jars = s.jars := by
  rcases hm with ⟨d, rfl⟩ | ⟨u, rfl⟩ | ⟨b, rfl⟩ | ⟨r, rfl⟩ | ⟨f, rfl⟩
  · rw [← Except.ok.inj h]
  · rw [← Except.ok.inj h]
  · obtain ⟨sig, _, rfl⟩ := withCA_ok env b s s' h
    rfl
  · obtain ⟨_, rfl⟩ := withPrincipals_ok r s s' h
    rfl
  · obtain ⟨sig, _, _, _, rfl⟩ := withFlags_ok env f s s' h
    rfl

lemma fromFactoryNoTimeLimit_limit (env : CryptoEnv) (m : Modifier)
    (hm : FromFactoryNoTimeLimit env m)
    (s s' : Server) (h : m s = .ok s') : s'.limit = s.limit := by
  rcases hm with ⟨u, rfl⟩ | ⟨b, rfl⟩ | ⟨r, rfl⟩
  · rw [← Except.ok.inj h]
  · obtain ⟨sig, _, rfl⟩ := withCA_ok env b s s' h
    rfl
  · obtain ⟨_, rfl⟩ := withPrincipals_ok r s s' h
    rfl

lemma newFinish_ok (res : Except String Server) (s' : Server)
    (h : newFinish res = .ok s') :
    ∃ s0, res = .ok s0 ∧
      s' = { s0 with authURL := TrimSuffix s0.authURL "/" } := by
  cases res with
  | error e => exact absurd h (by simp [newFinish])
  | ok s0 =>
      unfold newFinish at h
      simp only [] at h
      split at h
      · exact absurd h (by simp)
      · exact ⟨s0, rfl, (Except.ok.inj h).symm⟩

lemma new_ok (env : CryptoEnv) (rng : Nat) (mods : List Modifier) (s' : Server)
    (h : New env rng mods = .ok s') :
    ∃ pub priv s0, env.generateKey rng = .ok (pub, priv) ∧
      applyMods mods (initServer rng pub priv) = .ok s0 ∧
      s' = { s0 with authURL := TrimSuffix s0.authURL "/" } := by
  cases hg : env.generateKey rng with
  | error e => rw [new_eq_of_keygen_error env rng mods e hg] at h; exact absurd h (by simp)
  | ok kp =>
      obtain ⟨pub, priv⟩ := kp
      rw [new_eq_of_keygen env rng mods pub priv hg] at h
      obtain ⟨s0, h0, hs⟩ := newFinish_ok _ _ h
      exact ⟨pub, priv, s0, rfl, h0, hs⟩

/-! ### Concrete instances used to exercise the definitions -/

/-- A concrete crypto environment: parsing succeeds only on the byte string
`[9]`, producing signer handle `7`; key generation always succeeds. -/
def cEnv : CryptoEnv :=
  { parsePrivateKey := fun b => if b = [9] then .ok 7 else .error "ssh: no key found",
    publicKey := fun sig => sig + 1,
    marshalAuthorizedKey := fun k => [k, 42],
    generateKey := fun _ => .ok ([1], [2]) }

/-- A crypto environment whose key generation fails. -/
def failEnv : CryptoEnv :=
  { cEnv with generateKey := fun _ => .error "rand: read failed" }

/-- A server state used as a starting point in witnesses. -/
def testServer : Server := initServer 0 [1] [2]

lemma new_withAuthURL (env : CryptoEnv) (rng : Nat) (u : String)
    (pub priv : Key) (hg : env.generateKey rng = .ok (pub, priv)) :
    New env rng [WithAuthURL u] =
      if TrimSuffix u "/" = "" then
        .error "API usage error - an authentication URL must be set"
      else .ok { initServer rng pub priv with authURL := TrimSuffix u "/" } := by
  rw [new_eq_of_keygen env rng _ pub priv hg]
  rfl

lemma withPrincipals_of_ne (raw : String) (hraw : raw ≠ "") (s : Server) :
    WithPrincipals raw s = .ok { s with principals := goSplit raw } := by
  unfold WithPrincipals
  rw [if_neg]
  intro hc
  exact hraw ((goSplit_eq_single_empty_iff raw).1
    ((withPrincipals_cond_iff _ (goSplit_ne_nil raw)).1 hc))

lemma withFlags_error_of_url (env : CryptoEnv) (f : Flags) (sig : Nat)
    (hp : env.parsePrivateKey f.CA = .ok sig) (hraw : f.Principals ≠ "")
    (hurl : f.AuthURL = "" ∨ f.AuthURL = "/") (s : Server) :
    WithFlags env f s =
      .error "an auth-url must be supplied using the --auth-url parameter" := by
  unfold WithFlags WithTimeLimit WithAuthURL
  simp only [Except.bind]
  rw [withCA_ok_of_parse env f.CA sig hp]
  simp only [Except.bind]
  rw [withPrincipals_of_ne f.Principals hraw]
  simp only [Except.bind]
  simp [hurl]

lemma applyMods_single (m : Modifier) (s : Server) : applyMods [m] s = m s := by
  unfold applyMods
  cases h : m s with
  | error e => rfl
  | ok s1 => rfl

/-! ### Claims -/

/-- C1, counterexample: the endpoint URL `"//"` normalizes to the root path
`"/"` under the program's own normalization (one trailing slash stripped),
yet `New` succeeds and returns a server whose `authURL` is the root path,
contradicting the claim that it must return an error and no server. -/
theorem C1_counterexample :
    TrimSuffix "//" "/" = "/" ∧
    New cEnv 0 [WithAuthURL "//"] =
      .ok { rng := 0, serverPub := [1], serverPriv := [2], jars := [],
            limit := 30 * timeMinute, authURL := "/", caSigner := none,
            marshalledCAPublicKey := [], principals := [] } :=
  ⟨rfl, rfl⟩

/-- C1, amended: for every endpoint URL `u` supplied via `WithAuthURL` or
`WithFlags`, if `u` is empty or is exactly the root path `"/"` (the two
strings whose trailing-slash-stripped form is empty), then `New` returns an
error and no server. -/
theorem C1_new_rejects_empty_or_root_url (env : CryptoEnv) (rng : Nat)
    (u : String) (f : Flags) (hu : u = "" ∨ u = "/") (hf : f.AuthURL = u) :
    (∃ e, New env rng [WithAuthURL u] = .error e) ∧
    (∃ e, New env rng [WithFlags env f] = .error e) := by
  constructor
  · cases hg : env.generateKey rng with
    | error e => exact ⟨e, new_eq_of_keygen_error env rng _ e hg⟩
    | ok kp =>
        obtain ⟨pub, priv⟩ := kp
        rw [new_withAuthURL env rng u pub priv hg]
        have ht : TrimSuffix u "/" = "" := by rcases hu with rfl | rfl <;> rfl
        rw [ht]
        exact ⟨_, if_pos rfl⟩
  · apply new_error_of_mods
    intro s
    cases hp : env.parsePrivateKey f.CA with
    | error e =>
        exact ⟨e, by rw [applyMods_single, withFlags_error_of_parse env f e hp]⟩
    | ok sig =>
        by_cases hraw : f.Principals = ""
        · exact ⟨_, by
            rw [applyMods_single,
                withFlags_error_of_empty_principals env f sig hp hraw]⟩
        · exact ⟨_, by
            rw [applyMods_single,
                withFlags_error_of_url env f sig hp hraw (hf ▸ hu)]⟩

/-- C1, witness for the amended theorem at `u = "/"`. -/
theorem C1_witness :
    (∃ e, New cEnv 0 [WithAuthURL "/"] = .error e) ∧
    (∃ e, New cEnv 0
        [WithFlags cEnv { TimeLimit := 0, AuthURL := "/", Principals := "p", CA := [9] }]
      = .error e) :=
  C1_new_rejects_empty_or_root_url cEnv 0 "/"
    { TimeLimit := 0, AuthURL := "/", Principals := "p", CA := [9] }
    (Or.inr rfl) rfl

/-- C3: whenever `New` succeeds with the endpoint URL supplied by
`WithAuthURL u`, the stored `authURL` is `u` with one trailing `"/"`
stripped (`strings.TrimSuffix`). -/
theorem C3_authURL_trailing_slash_stripped (env : CryptoEnv) (rng : Nat)
    (u : String) (s : Server)
    (h : New env rng [WithAuthURL u] = .ok s) :
    s.authURL = TrimSuffix u "/" := by
  obtain ⟨pub, priv, s0, hg, ha, hs⟩ := new_ok env rng _ s h
  rw [applyMods_single] at ha
  have h0 : s0 = { initServer rng pub priv with authURL := u } :=
    (Except.ok.inj ha).symm
  subst h0
  subst hs
  rfl

/-- C3, witness: a concrete URL with a trailing slash is stored stripped. -/
theorem C3_witness :
    ({ rng := 0, serverPub := [1], serverPriv := [2], jars := [],
       limit := 30 * timeMinute, authURL := "http://a", caSigner := none,
       marshalledCAPublicKey := [], principals := [] } : Server).authURL
      = TrimSuffix "http://a/" "/" :=
  C3_authURL_trailing_slash_stripped cEnv 0 "http://a/" _ rfl

/-- C5: if generating the broker keypair from the random source fails,
`New` returns exactly that error, for every modifier list — no modifier is
applied. -/
theorem C5_keygen_failure_fatal (env : CryptoEnv) (rng : Nat) (e : String)
    (mods : List Modifier) (h : env.generateKey rng = .error e) :
    New env rng mods = .error e :=
  new_eq_of_keygen_error env rng mods e h

/-- C5, witness: with a failing key generator, `New` reports the generator's
error even though the modifier list contains a modifier that would itself
fail with a different error. -/
theorem C5_witness :
    New failEnv 0 [WithPrincipals ""] = .error "rand: read failed" :=
  C5_keygen_failure_fatal failEnv 0 "rand: read failed" [WithPrincipals ""] rfl

/-- C2: zero principals is a fatal construction error: `WithPrincipals ""`
always fails, `New` fails whenever that modifier is in its list (no broker
is returned), and a successful `WithPrincipals` never leaves an empty
principal list. -/
theorem C2_zero_principals_fatal :
    (∀ s : Server, WithPrincipals "" s =
        .error "there cannot be 0 principals in the auth server") ∧
    (∀ (env : CryptoEnv) (rng : Nat) (pre post : List Modifier),
      ∃ e, New env rng (pre ++ WithPrincipals "" :: post) = .error e) ∧
    (∀ (raw : String) (s s' : Server),
      WithPrincipals raw s = .ok s' → s'.principals ≠ []) := by
  refine ⟨withPrincipals_empty, ?_, ?_⟩
  · intro env rng pre post
    exact new_error_of_mods env rng _ (fun s =>
      applyMods_always_error _ (fun s1 => ⟨_, withPrincipals_empty s1⟩) pre post s)
  · intro raw s s' h
    obtain ⟨hraw, rfl⟩ := withPrincipals_ok raw s s' h
    exact goSplit_ne_nil raw

/-- C2, witness: the empty principal string is rejected standalone and
through `New`, and a successful call stores a non-empty list. -/
theorem C2_witness :
    WithPrincipals "" testServer =
      .error "there cannot be 0 principals in the auth server" ∧
    (∃ e, New cEnv 0 ([WithAuthURL "x"] ++ WithPrincipals "" :: []) = .error e) ∧
    ({ testServer with principals := goSplit "alice" } : Server).principals ≠ [] :=
  ⟨C2_zero_principals_fatal.1 testServer,
   C2_zero_principals_fatal.2.1 cEnv 0 [WithAuthURL "x"] [],
   C2_zero_principals_fatal.2.2 "alice" testServer _ rfl⟩

/-- C4: when the CA key bytes do not parse, `WithCA` returns exactly the
parse error, and `New` fails (returns no server) whenever that modifier is
in its list. -/
theorem C4_unparsable_ca_fatal (env : CryptoEnv) (b : Bytes) (e : String)
    (hp : env.parsePrivateKey b = .error e) :
    (∀ s : Server, WithCA env b s = .error e) ∧
    (∀ (rng : Nat) (pre post : List Modifier),
      ∃ e2, New env rng (pre ++ WithCA env b :: post) = .error e2) := by
  refine ⟨withCA_error_of_parse env b e hp, ?_⟩
  intro rng pre post
  exact new_error_of_mods env rng _ (fun s =>
    applyMods_always_error _ (fun s1 => ⟨e, withCA_error_of_parse env b e hp s1⟩)
      pre post s)

/-- C4, witness: concrete unparsable CA bytes kill both `WithCA` and `New`. -/
theorem C4_witness :
    WithCA cEnv [0] testServer = .error "ssh: no key found" ∧
    (∃ e2, New cEnv 0 ([] ++ WithCA cEnv [0] :: [WithPrincipals "p"]) = .error e2) :=
  ⟨(C4_unparsable_ca_fatal cEnv [0] "ssh: no key found" rfl).1 testServer,
   (C4_unparsable_ca_fatal cEnv [0] "ssh: no key found" rfl).2 0 [] [WithPrincipals "p"]⟩

/-- C6: ordered application.  The modifier loop returns the first error and
never looks at later modifiers; `New` likewise.  Inside `WithFlags` the CA
step runs before the principal step (its error wins even when the principal
string is also empty), the principal step runs before the final URL check,
and on success the time limit and auth URL supplied by the flags are the
ones stored. -/
theorem C6_ordered_application (env : CryptoEnv) :
    (∀ (pre post : List Modifier) (m : Modifier) (s s' : Server) (e : String),
      applyMods pre s = .ok s' → m s' = .error e →
      applyMods (pre ++ m :: post) s = .error e) ∧
    (∀ (rng : Nat) (pre post : List Modifier) (m : Modifier) (s' : Server)
        (e : String) (pub priv : Key),
      env.generateKey rng = .ok (pub, priv) →
      applyMods pre (initServer rng pub priv) = .ok s' → m s' = .error e →
      New env rng (pre ++ m :: post) = .error e) ∧
    (∀ (f : Flags) (s : Server) (e : String),
      env.parsePrivateKey f.CA = .error e → WithFlags env f s = .error e) ∧
    (∀ (f : Flags) (s : Server) (sig : Nat),
      env.parsePrivateKey f.CA = .ok sig → f.Principals = "" →
      WithFlags env f s = .error "there cannot be 0 principals in the auth server") ∧
    (∀ (f : Flags) (s s' : Server), WithFlags env f s = .ok s' →
      s'.limit = f.TimeLimit ∧ s'.authURL = f.AuthURL) := by
  have hfirst : ∀ (pre post : List Modifier) (m : Modifier) (s s' : Server)
      (e : String), applyMods pre s = .ok s' → m s' = .error e →
      applyMods (pre ++ m :: post) s = .error e := by
    intro pre post m s s' e h1 hm
    rw [applyMods_append, h1]
    show applyMods (m :: post) s' = .error e
    unfold applyMods
    rw [hm]
  refine ⟨hfirst, ?_, ?_, ?_, ?_⟩
  · intro rng pre post m s' e pub priv hg h1 hm
    rw [new_eq_of_keygen env rng _ pub priv hg,
        hfirst pre post m _ s' e h1 hm]
    rfl
  · intro f s e hp
    exact withFlags_error_of_parse env f e hp s
  · intro f s sig hp hpr
    exact withFlags_error_of_empty_principals env f sig hp hpr s
  · intro f s s' h
    obtain ⟨sig, _, _, _, rfl⟩ := withFlags_ok env f s s' h
    exact ⟨rfl, rfl⟩

/-- C6, witness: concrete runs showing first-error-wins in `New`, the CA
error beating an empty principal string and a bad URL, the principal error
beating a bad URL, and the stored limit/URL coming from the flags. -/
theorem C6_witness :
    New cEnv 0 ([WithAuthURL "x"] ++ WithPrincipals "" :: [WithAuthURL "y"]) =
      .error "there cannot be 0 principals in the auth server" ∧
    WithFlags cEnv { TimeLimit := 1, AuthURL := "", Principals := "", CA := [0] }
      testServer = .error "ssh: no key found" ∧
    WithFlags cEnv { TimeLimit := 1, AuthURL := "", Principals := "", CA := [9] }
      testServer = .error "there cannot be 0 principals in the auth server" ∧
    ({ testServer with
        limit := 5, authURL := "u", caSigner := some 7,
        marshalledCAPublicKey := [8, 42], principals := goSplit "p" } : Server).limit = 5 ∧
    ({ testServer with
        limit := 5, authURL := "u", caSigner := some 7,
        marshalledCAPublicKey := [8, 42], principals := goSplit "p" } : Server).authURL = "u" := by
  refine ⟨?_, ?_, ?_, ?_⟩
  · exact (C6_ordered_application cEnv).2.1 0 [WithAuthURL "x"] [WithAuthURL "y"]
      (WithPrincipals "") { initServer 0 [1] [2] with authURL := "x" } _ [1] [2]
      rfl rfl rfl
  · exact (C6_ordered_application cEnv).2.2.1
      { TimeLimit := 1, AuthURL := "", Principals := "", CA := [0] } testServer
      "ssh: no key found" rfl
  · exact (C6_ordered_application cEnv).2.2.2.1
      { TimeLimit := 1, AuthURL := "", Principals := "", CA := [9] } testServer
      7 rfl rfl
  · exact (C6_ordered_application cEnv).2.2.2.2
      { TimeLimit := 5, AuthURL := "u", Principals := "p", CA := [9] } testServer
      _ rfl

/-- C7: the default time limit is 30 minutes: `DefaultFlags` carries it, and
a server built by `New` from factory modifiers none of which sets the time
limit keeps the 30-minute default. -/
theorem C7_default_time_limit :
    DefaultFlags.TimeLimit = 30 * timeMinute ∧
    (∀ (env : CryptoEnv) (rng : Nat) (mods : List Modifier) (s : Server),
      (∀ m ∈ mods, FromFactoryNoTimeLimit env m) →
      New env rng mods = .ok s → s.limit = 30 * timeMinute) := by
  refine ⟨rfl, ?_⟩
  intro env rng mods s hmods h
  obtain ⟨pub, priv, s0, hg, ha, rfl⟩ := new_ok env rng mods s h
  exact applyMods_preserves (fun t => t.limit = 30 * timeMinute) mods
    (fun m hm s1 s2 h12 hP => by
      show s2.limit = 30 * timeMinute
      rw [fromFactoryNoTimeLimit_limit env m (hmods m hm) s1 s2 h12]
      exact hP)
    _ s0 ha rfl

/-- C7, witness: a server built with only an auth URL keeps the 30-minute
default limit. -/
theorem C7_witness :
    DefaultFlags.TimeLimit = 30 * timeMinute ∧
    ({ rng := 0, serverPub := [1], serverPriv := [2], jars := [],
       limit := 30 * timeMinute, authURL := "y", caSigner := none,
       marshalledCAPublicKey := [], principals := [] } : Server).limit
      = 30 * timeMinute :=
  ⟨C7_default_time_limit.1,
   C7_default_time_limit.2 cEnv 0 [WithAuthURL "y"] _
     (fun m hm => by
        rw [List.mem_singleton] at hm
        subst hm
        exact Or.inl ⟨"y", rfl⟩)
     rfl⟩

/-- C8: when `WithCA` succeeds, the stored `marshalledCAPublicKey` is the
authorized-key marshalling of the public key of the parsed signer, and the
signer itself is stored. -/
theorem C8_marshalled_ca_public_key (env : CryptoEnv) (b : Bytes)
    (s s' : Server) (h : WithCA env b s = .ok s') :
    ∃ sig, env.parsePrivateKey b = .ok sig ∧ s'.caSigner = some sig ∧
      s'.marshalledCAPublicKey = env.marshalAuthorizedKey (env.publicKey sig) := by
  obtain ⟨sig, hp, rfl⟩ := withCA_ok env b s s' h
  exact ⟨sig, hp, rfl, rfl⟩

/-- C8, witness: concrete CA bytes parse to signer `7` and the marshalled
public key is stored. -/
theorem C8_witness :
    ∃ sig, cEnv.parsePrivateKey [9] = .ok sig ∧
      ({ testServer with
          caSigner := some 7,
          marshalledCAPublicKey := [8, 42] } : Server).caSigner = some sig ∧
      ({ testServer with
          caSigner := some 7,
          marshalledCAPublicKey := [8, 42] } : Server).marshalledCAPublicKey
        = cEnv.marshalAuthorizedKey (cEnv.publicKey sig) :=
  C8_marshalled_ca_public_key cEnv [9] testServer _ rfl

/-- C9: `WithPrincipals raw` fails exactly when `raw` is the empty string;
for every other `raw` it succeeds and stores exactly the substrings of
`raw` split on `","`, in order (which may contain empty names). -/
theorem C9_principals_split (raw : String) (s : Server) :
    ((∃ e, WithPrincipals raw s = .error e) ↔ raw = "") ∧
    (raw ≠ "" → WithPrincipals raw s = .ok { s with principals := goSplit raw }) :=
  ⟨withPrincipals_error_iff raw s, fun h => withPrincipals_of_ne raw h s⟩

/-- C9, witness: the string `","` is accepted and stores two empty-string
principal names. -/
theorem C9_witness :
    WithPrincipals "," testServer =
      .ok { testServer with principals := ["", ""] } ∧
    ¬∃ e, WithPrincipals "," testServer = .error e := by
  have h := C9_principals_split "," testServer
  constructor
  · rw [h.2 (by decide)]
    rfl
  · intro he
    exact absurd (h.1.1 he) (by decide)

/-- C10: every server returned by `New` built from the factory's modifiers
has an empty jars map: no session is in flight after construction. -/
theorem C10_jars_empty (env : CryptoEnv) (rng : Nat) (mods : List Modifier)
    (s : Server) (hmods : ∀ m ∈ mods, FromFactory env m)
    (h : New env rng mods = .ok s) : s.jars = [] := by
  obtain ⟨pub, priv, s0, hg, ha, rfl⟩ := new_ok env rng mods s h
  exact applyMods_preserves (fun t => t.jars = []) mods
    (fun m hm s1 s2 h12 hP => by
      show s2.jars = []
      rw [fromFactory_jars env m (hmods m hm) s1 s2 h12]
      exact hP)
    _ s0 ha rfl

/-- C10, witness: a concrete construction with URL and principals ends with
an empty jars map. -/
theorem C10_witness :
    ({ rng := 0, serverPub := [1], serverPriv := [2], jars := [],
       limit := 30 * timeMinute, authURL := "z", caSigner := none,
       marshalledCAPublicKey := [], principals := ["bob"] } : Server).jars = [] :=
  C10_jars_empty cEnv 0 [WithAuthURL "z", WithPrincipals "bob"] _
    (fun m hm => by
      rcases List.mem_cons.1 hm with rfl | hm2
      · exact Or.inr (Or.inl ⟨"z", rfl⟩)
      · rw [List.mem_singleton] at hm2
        subst hm2
        exact Or.inr (Or.inr (Or.inr (Or.inl ⟨"bob", rfl⟩))))
    rfl

end AuthFactory
